import Mathlib

/-!
Verification of the shopping-list aggregation core of the foodgram backend.

The development shallowly embeds the two implementations of the
`download_shopping_cart` endpoint found in the repository
(`backend/api/views.py`, a SQL-style values/annotate-Sum/order-by queryset,
and `backend/recipes/views.py`, a Python dict accumulation over the cart of
the user), together with the cart-mutation
action `shopping_cart` and the serializer-level amount validation, and
proves the specified properties about them.

Database rows are plain structures; a database snapshot is a record of row
lists; Django querysets become list filters; the SQL `GROUP BY`/`Sum`
becomes first-occurrence key deduplication plus summation; `order_by` on a
text column becomes insertion sort by code-point string order; the Python
dict with its insertion-ordered keys becomes an association list.
-/

/-- An `Ingredient` row: name and measurement unit
(`backend/recipes/models.py`). -/
structure Ingredient where
  name : String
  measurement_unit : String
deriving DecidableEq, Repr

/-- A `RecipeIngredient` row: the join entity (recipe, ingredient, amount)
(`backend/recipes/models.py`).  The recipe is referenced by id; the
ingredient columns are inlined since the aggregation only reads
`ingredient__name` / `ingredient__measurement_unit`.  `amount` is stored as
an integer (`PositiveIntegerField` at the database level). -/
structure RecipeIngredient where
  recipeId : Nat
  ingredient : Ingredient
  amount : Int
deriving DecidableEq, Repr

/-- A database snapshot: user ids, recipe ids, `RecipeIngredient` rows,
`ShoppingCart` rows and `Favorite` rows ((user, recipe) pairs). -/
structure Db where
  users : List Nat
  recipes : List Nat
  recipeIngredients : List RecipeIngredient
  shoppingCart : List (Nat × Nat)
  favorites : List (Nat × Nat)
deriving DecidableEq, Repr

/-- First-occurrence deduplication: the distinct keys of a list, each kept
at the position of its first occurrence (the key order of a SQL
`GROUP BY` presentation and of a Python dict built by repeated insertion). -/
def dedupKeys {α : Type} [DecidableEq α] : List α → List α
  | [] => []
  | k :: ks => k :: dedupKeys (ks.filter (fun x => x ≠ k))
termination_by l => l.length
decreasing_by
  exact Nat.lt_succ_of_le (List.length_filter_le _ _)

theorem mem_dedupKeys {α : Type} [DecidableEq α] (l : List α) (a : α) :
    a ∈ dedupKeys l ↔ a ∈ l := by
  induction l using dedupKeys.induct with
  | case1 => simp [dedupKeys]
  | case2 k ks ih =>
    rw [dedupKeys, List.mem_cons, List.mem_cons, ih, List.mem_filter]
    by_cases hak : a = k
    · simp [hak]
    · simp [hak]

theorem nodup_dedupKeys {α : Type} [DecidableEq α] (l : List α) :
    (dedupKeys l).Nodup := by
  induction l using dedupKeys.induct with
  | case1 => simp [dedupKeys]
  | case2 k ks ih =>
    rw [dedupKeys]
    refine List.Nodup.cons ?_ ih
    intro hmem
    rw [mem_dedupKeys] at hmem
    have := (List.mem_filter.mp hmem).2
    simp at this

/-- One aggregated output group: ingredient name, measurement unit and the
summed amount, as selected by
the values/annotate-Sum queryset in `backend/api/views.py`. -/
structure GroupLine where
  name : String
  unit : String
  total : Int
deriving DecidableEq, Repr

/-- Insert a group into a list sorted by ingredient name (helper for the
embedding of the order-by on the ingredient name column). -/
def insertLine (g : GroupLine) : List GroupLine → List GroupLine
  | [] => [g]
  | h :: t => if g.name ≤ h.name then g :: h :: t else h :: insertLine g t

/-- Sort group lines by ingredient name ascending (code-point string order):
the embedding of the order-by on the ingredient name column applied to the
grouped queryset. -/
def sortLines : List GroupLine → List GroupLine
  | [] => []
  | h :: t => insertLine h (sortLines t)

theorem perm_insertLine (g : GroupLine) (l : List GroupLine) :
    (insertLine g l).Perm (g :: l) := by
  induction l with
  | nil => simp [insertLine]
  | cons h t ih =>
    rw [insertLine]
    by_cases hle : g.name ≤ h.name
    · simp [hle]
    · simp only [hle, if_false]
      exact ((ih.cons h).trans (List.Perm.swap g h t))

theorem perm_sortLines (l : List GroupLine) : (sortLines l).Perm l := by
  induction l with
  | nil => simp [sortLines]
  | cons h t ih =>
    exact (perm_insertLine h (sortLines t)).trans (ih.cons h)

theorem mem_sortLines (l : List GroupLine) (g : GroupLine) :
    g ∈ sortLines l ↔ g ∈ l :=
  (perm_sortLines l).mem_iff

theorem sorted_insertLine (g : GroupLine) (l : List GroupLine)
    (h : l.Pairwise (fun a b => a.name ≤ b.name)) :
    (insertLine g l).Pairwise (fun a b => a.name ≤ b.name) := by
  induction l with
  | nil => simp [insertLine]
  | cons x t ih =>
    rw [insertLine]
    rcases List.pairwise_cons.mp h with ⟨hx, ht⟩
    by_cases hle : g.name ≤ x.name
    · simp only [hle, if_true]
      refine List.pairwise_cons.mpr ⟨?_, h⟩
      intro b hb
      rcases List.mem_cons.mp hb with rfl | hb
      · exact hle
      · exact le_trans hle (hx b hb)
    · simp only [hle, if_false]
      refine List.pairwise_cons.mpr ⟨?_, ih ht⟩
      intro b hb
      rcases List.mem_cons.mp ((perm_insertLine g t).mem_iff.mp hb) with rfl | hb
      · exact le_of_not_le hle
      · exact hx b hb

theorem sorted_sortLines (l : List GroupLine) :
    (sortLines l).Pairwise (fun a b => a.name ≤ b.name) := by
  induction l with
  | nil => simp [sortLines]
  | cons h t ih => exact sorted_insertLine h (sortLines t) ih

/-- The `RecipeIngredient` rows selected by
`RecipeIngredient.objects.filter(recipe__in_shopping_carts__user=user)`
(`backend/api/views.py`): every ingredient line whose recipe is referenced
by a cart row of this user. -/
def cartLines (db : Db) (user : Nat) : List RecipeIngredient :=
  db.recipeIngredients.filter
    (fun ri => db.shoppingCart.any (fun c => c.1 == user && ri.recipeId == c.2))

/-- Sum of the `amount` column over the rows carrying a given ingredient
key: the embedding of the SQL Sum over amount within one GROUP BY group. -/
def sumFor (rows : List RecipeIngredient) (k : Ingredient) : Int :=
  ((rows.filter (fun r => r.ingredient = k)).map (·.amount)).sum

/-- The grouped, annotated and ordered queryset of
`download_shopping_cart` in `backend/api/views.py`: one `GroupLine` per
distinct (name, unit) key among the selected rows, annotated with the sum
of the amounts, ordered by ingredient name. -/
def aggregateApi (db : Db) (user : Nat) : List GroupLine :=
  sortLines ((dedupKeys ((cartLines db user).map (·.ingredient))).map
    (fun k => ⟨k.name, k.measurement_unit, sumFor (cartLines db user) k⟩))

/-- The ingredient lines enumerated by the nested loops of
`download_shopping_cart` in `backend/recipes/views.py`: for each cart row
of the user (in table order), the `recipe_ingredients` rows of its recipe. -/
def recipesRows (db : Db) (user : Nat) : List RecipeIngredient :=
  (db.shoppingCart.filter (fun c => c.1 == user)).flatMap
    (fun c => db.recipeIngredients.filter (fun ri => ri.recipeId == c.2))

/-- One dict-update step of the accumulation loop (get with default 0,
add, store back) on a Python dict, embedded as an insertion-ordered
association list: an existing key keeps its position and accumulates, a
new key is appended. -/
def dictInsert (m : List (Ingredient × Int)) (k : Ingredient) (a : Int) :
    List (Ingredient × Int) :=
  match m with
  | [] => [(k, a)]
  | (k0, v) :: t => if k0 = k then (k0, v + a) :: t else (k0, v) :: dictInsert t k a

/-- Dict lookup with default 0 (the get-with-default of the loop). -/
def lookupD (m : List (Ingredient × Int)) (k : Ingredient) : Int :=
  match m with
  | [] => 0
  | (k0, v) :: t => if k0 = k then v else lookupD t k

/-- The dict built by the accumulation loop of `download_shopping_cart` in
`backend/recipes/views.py`. -/
def recipesDict (db : Db) (user : Nat) : List (Ingredient × Int) :=
  (recipesRows db user).foldl (fun m ri => dictInsert m ri.ingredient ri.amount) []

/-- The output groups of `backend/recipes/views.py`: the dict items in
insertion order, turned into (name, unit, total) lines. -/
def aggregateRecipes (db : Db) (user : Nat) : List GroupLine :=
  (recipesDict db user).map (fun p => ⟨p.1.name, p.1.measurement_unit, p.2⟩)

/-- One rendered line: the f-string interpolating the ingredient name, the
measurement unit in parentheses and the amount after an em dash, identical
in `backend/api/views.py` and `backend/recipes/views.py`. -/
def fmtLine (g : GroupLine) : String :=
  g.name ++ " (" ++ g.unit ++ ") — " ++ toString g.total

/-- Python `sep.join(lines)`: empty on an empty list, otherwise the first
element followed by `sep ++ next` for each remaining element. -/
def pyJoin (sep : String) : List String → String
  | [] => ""
  | a :: rest => rest.foldl (fun acc x => acc ++ sep ++ x) a

/-- The `content` string built by `download_shopping_cart` in
`backend/api/views.py`: the newline join of the formatted group lines. -/
def contentApi (db : Db) (user : Nat) : String :=
  pyJoin "\n" ((aggregateApi db user).map fmtLine)

/-- The `content` string built by `download_shopping_cart` in
`backend/recipes/views.py`. -/
def contentRecipes (db : Db) (user : Nat) : String :=
  pyJoin "\n" ((aggregateRecipes db user).map fmtLine)

/-- An HTTP response as far as the claims observe it: status code,
optional `Content-Type`, optional `Content-Disposition`, body text. -/
structure HttpResponse where
  statusCode : Nat
  contentType : Option String
  contentDisposition : Option String
  body : String
deriving DecidableEq, Repr

/-- The detail message of the 401 response body. -/
def unauthorizedDetail : String := "Учетная запись не авторизована."

/-- The `Content-Disposition` header value set on the download response. -/
def attachmentHeader : String := "attachment; filename=\"shopping_list.txt\""

/-- The `download_shopping_cart` action of `backend/api/views.py`, as a
state-passing function on the database snapshot.  An unauthenticated
request is answered 401 before any query runs; an authenticated one gets a
200 `text/plain` attachment whose body is the rendered listing.  The
action only reads, so the returned snapshot is the input snapshot. -/
def download_shopping_cart (db : Db) (isAuthenticated : Bool) (user : Nat) :
    HttpResponse × Db :=
  if !isAuthenticated then
    (⟨401, none, none, unauthorizedDetail⟩, db)
  else
    (⟨200, some "text/plain", some attachmentHeader, contentApi db user⟩, db)

/-- The `download_shopping_cart` action of `backend/recipes/views.py`:
same control flow and headers, dict-based body. -/
def download_shopping_cart_recipes (db : Db) (isAuthenticated : Bool) (user : Nat) :
    HttpResponse × Db :=
  if !isAuthenticated then
    (⟨401, none, none, unauthorizedDetail⟩, db)
  else
    (⟨200, some "text/plain", some attachmentHeader, contentRecipes db user⟩, db)

/-- HTTP method of a `shopping_cart` request. -/
inductive HttpMethod where
  | post
  | delete
deriving DecidableEq, Repr

/-- The `shopping_cart` action of `backend/api/views.py`, state-passing:
401 when unauthenticated; 404 from `get_object` when the recipe id does
not exist; on POST, 400 if the (user, recipe) cart row already exists and
otherwise a created row with 201; on DELETE, 400 if no such cart row
exists and otherwise deletion of the matching rows with 204. -/
def shopping_cart (db : Db) (isAuthenticated : Bool) (user pk : Nat)
    (method : HttpMethod) : HttpResponse × Db :=
  if !isAuthenticated then
    (⟨401, none, none, unauthorizedDetail⟩, db)
  else if !(db.recipes.contains pk) then
    (⟨404, none, none, "No Recipe matches the given query."⟩, db)
  else
    match method with
    | .post =>
      if (db.shoppingCart.filter (fun c => c == (user, pk))).isEmpty = false then
        (⟨400, none, none, "Рецепт уже в списке покупок."⟩, db)
      else
        (⟨201, none, none, "recipe " ++ toString pk⟩,
         { db with shoppingCart := db.shoppingCart ++ [(user, pk)] })
    | .delete =>
      if (db.shoppingCart.filter (fun c => c == (user, pk))).isEmpty then
        (⟨400, none, none, "Рецепта нет в списке покупок."⟩, db)
      else
        (⟨204, none, none, ""⟩,
         { db with shoppingCart := db.shoppingCart.filter (fun c => c ≠ (user, pk)) })

/-- The constant MIN_INGREDIENT_AMOUNT of `backend/api/serializers.py`. -/
def MIN_INGREDIENT_AMOUNT : Int := 1

/-- The constant MAX_INGREDIENT_AMOUNT of `backend/api/serializers.py`. -/
def MAX_INGREDIENT_AMOUNT : Int := 32000

/-- Validation of the `amount` field by `RecipeIngredientWriteSerializer`
in `backend/api/serializers.py`:
`IntegerField(min_value=MIN_INGREDIENT_AMOUNT, max_value=MAX_INGREDIENT_AMOUNT)`. -/
def amountValidApi (a : Int) : Bool :=
  MIN_INGREDIENT_AMOUNT ≤ a && a ≤ MAX_INGREDIENT_AMOUNT

/-- Validation of the `amount` field by `RecipeIngredientWriteSerializer`
in `backend/recipes/serializers.py`: `IntegerField(min_value=1)` — no
upper bound. -/
def amountValidRecipes (a : Int) : Bool :=
  1 ≤ a

theorem lookupD_dictInsert (m : List (Ingredient × Int)) (k : Ingredient)
    (a : Int) (q : Ingredient) :
    lookupD (dictInsert m k a) q = lookupD m q + (if k = q then a else 0) := by
  induction m with
  | nil =>
    simp only [dictInsert, lookupD]
    split
    · next h => simp [h]
    · next h => simp [h]
  | cons hd t ih =>
    obtain ⟨k0, v⟩ := hd
    by_cases hk0 : k0 = k
    · subst hk0
      simp only [dictInsert, if_pos rfl]
      by_cases hq : k0 = q
      · subst hq; simp [lookupD]
      · simp [lookupD, hq]
    · simp only [dictInsert, if_neg hk0]
      by_cases hq : k0 = q
      · subst hq
        have : ¬ k = k0 := fun h => hk0 h.symm
        simp [lookupD, this]
      · simp [lookupD, hq, ih]

theorem dictKeys_dictInsert (m : List (Ingredient × Int)) (k : Ingredient)
    (a : Int) :
    (dictInsert m k a).map Prod.fst =
      if k ∈ m.map Prod.fst then m.map Prod.fst else m.map Prod.fst ++ [k] := by
  induction m with
  | nil => simp [dictInsert]
  | cons hd t ih =>
    obtain ⟨k0, v⟩ := hd
    by_cases hk0 : k0 = k
    · subst hk0
      simp [dictInsert]
    · simp only [dictInsert, if_neg hk0, List.map_cons, ih]
      by_cases hmem : k ∈ t.map Prod.fst
      · have : k ∈ (k0, v).fst :: t.map Prod.fst := List.mem_cons_of_mem _ hmem
        simp [hmem, this]
      · have : ¬ k ∈ k0 :: t.map Prod.fst := by
          intro hc
          rcases List.mem_cons.mp hc with h | h
          · exact hk0 h.symm
          · exact hmem h
        simp [hmem, this]

theorem sumFor_nil (k : Ingredient) : sumFor [] k = 0 := rfl

theorem sumFor_cons (r : RecipeIngredient) (rows : List RecipeIngredient)
    (k : Ingredient) :
    sumFor (r :: rows) k =
      (if r.ingredient = k then r.amount else 0) + sumFor rows k := by
  simp only [sumFor, List.filter_cons]
  by_cases h : r.ingredient = k
  · simp [h]
  · simp [h]

theorem foldl_dictInsert_lookup (rows : List RecipeIngredient) :
    ∀ (m : List (Ingredient × Int)) (k : Ingredient),
      lookupD (rows.foldl (fun m ri => dictInsert m ri.ingredient ri.amount) m) k
        = lookupD m k + sumFor rows k := by
  induction rows with
  | nil => intro m k; simp [sumFor_nil]
  | cons r rows ih =>
    intro m k
    rw [List.foldl_cons, ih, lookupD_dictInsert, sumFor_cons]
    ring

theorem foldl_dictInsert_keys (rows : List RecipeIngredient) :
    ∀ (m : List (Ingredient × Int)),
      (rows.foldl (fun m ri => dictInsert m ri.ingredient ri.amount) m).map Prod.fst
        = m.map Prod.fst ++
          dedupKeys ((rows.map (·.ingredient)).filter
            (fun x => decide (¬ x ∈ m.map Prod.fst))) := by
  induction rows with
  | nil => intro m; simp [dedupKeys]
  | cons r rows ih =>
    intro m
    rw [List.foldl_cons, ih]
    rw [dictKeys_dictInsert]
    by_cases hmem : r.ingredient ∈ m.map Prod.fst
    · rw [if_pos hmem]
      congr 1
      congr 1
      rw [List.map_cons, List.filter_cons]
      simp [hmem]
    · rw [if_neg hmem]
      rw [List.map_cons, List.filter_cons]
      have hpass : (decide (¬ r.ingredient ∈ m.map Prod.fst)) = true := by
        simp [hmem]
      rw [if_pos hpass, dedupKeys, List.append_assoc, List.singleton_append]
      congr 2
      rw [List.filter_filter]
      refine congrArg dedupKeys ?_
      apply List.filter_congr
      intro x _
      by_cases hx : x ∈ m.map Prod.fst
      · simp [hx]
      · by_cases hxk : x = r.ingredient
        · simp [hx, hxk]
        · simp [hx, hxk]

theorem recipesDict_keys (db : Db) (user : Nat) :
    (recipesDict db user).map Prod.fst =
      dedupKeys ((recipesRows db user).map (·.ingredient)) := by
  rw [recipesDict, foldl_dictInsert_keys]
  simp only [List.map_nil, List.nil_append]
  congr 1
  apply List.filter_eq_self.mpr
  intro a _
  simp

theorem recipesDict_keys_nodup (db : Db) (user : Nat) :
    ((recipesDict db user).map Prod.fst).Nodup := by
  rw [recipesDict_keys]; exact nodup_dedupKeys _

theorem recipesDict_lookup (db : Db) (user : Nat) (k : Ingredient) :
    lookupD (recipesDict db user) k = sumFor (recipesRows db user) k := by
  rw [recipesDict, foldl_dictInsert_lookup]
  simp [lookupD]

theorem lookupD_of_mem (m : List (Ingredient × Int))
    (hnd : (m.map Prod.fst).Nodup) (p : Ingredient × Int) (hp : p ∈ m) :
    lookupD m p.1 = p.2 := by
  induction m with
  | nil => cases hp
  | cons hd t ih =>
    obtain ⟨k0, v⟩ := hd
    rcases List.mem_cons.mp hp with rfl | hp
    · simp [lookupD]
    · have hk0 : k0 ≠ p.1 := by
        intro h
        have : p.1 ∈ t.map Prod.fst := List.mem_map_of_mem Prod.fst hp
        rw [← h] at this
        exact (List.nodup_cons.mp hnd).1 this
      simp only [lookupD, if_neg hk0]
      exact ih (List.nodup_cons.mp hnd).2 hp

theorem recipesDict_value (db : Db) (user : Nat) (p : Ingredient × Int)
    (hp : p ∈ recipesDict db user) :
    p.2 = sumFor (recipesRows db user) p.1 := by
  rw [← recipesDict_lookup]
  exact (lookupD_of_mem _ (recipesDict_keys_nodup db user) p hp).symm

/-- The spec phrase rendered literally: lines "joined by newline
characters, no trailing separator" — empty for no lines, the line itself
for one line, and otherwise the first line, a newline, and the join of the
rest.  Used to compare the newline join of the code against the specified
rendering. -/
def joinLinesSpec : List String → String
  | [] => ""
  | [l] => l
  | l :: ls => l ++ "\n" ++ joinLinesSpec ls

theorem foldl_append_shift (xs : List String) :
    ∀ s t : String,
      xs.foldl (fun acc x => acc ++ "\n" ++ x) (s ++ t)
        = s ++ xs.foldl (fun acc x => acc ++ "\n" ++ x) t := by
  induction xs with
  | nil => intro s t; simp
  | cons x xs ih =>
    intro s t
    rw [List.foldl_cons, List.foldl_cons, String.append_assoc s t "\n",
      String.append_assoc s (t ++ "\n") x, ih]

theorem pyJoin_eq_joinLinesSpec (l : List String) :
    pyJoin "\n" l = joinLinesSpec l := by
  induction l with
  | nil => rfl
  | cons a rest ih =>
    cases rest with
    | nil => rfl
    | cons b t =>
      have ih2 : List.foldl (fun acc x => acc ++ "\n" ++ x) b t
          = joinLinesSpec (b :: t) := by
        have h := ih
        rw [pyJoin] at h
        exact h
      have hspec : joinLinesSpec (a :: b :: t)
          = a ++ "\n" ++ joinLinesSpec (b :: t) := rfl
      rw [pyJoin, List.foldl_cons, foldl_append_shift, ih2, hspec]

theorem sumFor_append (l1 l2 : List RecipeIngredient) (k : Ingredient) :
    sumFor (l1 ++ l2) k = sumFor l1 k + sumFor l2 k := by
  simp [sumFor, List.filter_append]

theorem sumFor_filter_disjoint (k : Ingredient)
    (p q : RecipeIngredient → Bool) (R : List RecipeIngredient)
    (h : ∀ r ∈ R, ¬(p r = true ∧ q r = true)) :
    sumFor (R.filter (fun r => p r || q r)) k
      = sumFor (R.filter p) k + sumFor (R.filter q) k := by
  induction R with
  | nil => simp [sumFor]
  | cons r R ih =>
    have htail : ∀ x ∈ R, ¬(p x = true ∧ q x = true) :=
      fun x hx => h x (List.mem_cons_of_mem _ hx)
    have hih := ih htail
    rw [List.filter_cons, List.filter_cons, List.filter_cons]
    by_cases hp : p r = true
    · have hq : ¬ q r = true := fun hq => h r (List.mem_cons_self _ _) ⟨hp, hq⟩
      simp only [hp, hq, Bool.true_or, if_true, if_false, Bool.false_eq_true]
      rw [sumFor_cons, sumFor_cons, hih]
      ring
    · by_cases hq : q r = true
      · simp only [hp, hq, Bool.or_true, if_true, Bool.false_eq_true, if_false]
        rw [sumFor_cons, sumFor_cons, hih]
        ring
      · simp only [hp, hq, Bool.or_self, Bool.false_eq_true, if_false]
        rw [hih]

theorem sum_flatMap_eq_filter (R : List RecipeIngredient) (k : Ingredient) :
    ∀ E : List (Nat × Nat), (E.map (·.2)).Nodup →
      sumFor (E.flatMap (fun c => R.filter (fun ri => ri.recipeId == c.2))) k
        = sumFor (R.filter (fun ri => E.any (fun c => ri.recipeId == c.2))) k := by
  intro E
  induction E with
  | nil => intro _; simp [sumFor]
  | cons c E ih =>
    intro hnd
    have hndt : (E.map (·.2)).Nodup := (List.nodup_cons.mp hnd).2
    have hhd : ¬ c.2 ∈ E.map (·.2) := (List.nodup_cons.mp hnd).1
    have hflat : (c :: E).flatMap (fun c => R.filter (fun ri => ri.recipeId == c.2))
        = R.filter (fun ri => ri.recipeId == c.2)
          ++ E.flatMap (fun c => R.filter (fun ri => ri.recipeId == c.2)) := rfl
    rw [hflat, sumFor_append, ih hndt]
    have hdisj : ∀ r ∈ R,
        ¬((r.recipeId == c.2) = true ∧ (E.any (fun e => r.recipeId == e.2)) = true) := by
      intro r _ ⟨h1, h2⟩
      rcases List.any_eq_true.mp h2 with ⟨e, heE, hre⟩
      apply hhd
      have h1n : r.recipeId = c.2 := by simpa using h1
      have h2n : r.recipeId = e.2 := by simpa using hre
      rw [← h1n, h2n]
      exact List.mem_map_of_mem _ heE
    have hany : (fun ri : RecipeIngredient => (c :: E).any (fun c => ri.recipeId == c.2))
        = fun ri : RecipeIngredient =>
            (ri.recipeId == c.2) || E.any (fun e => ri.recipeId == e.2) := rfl
    rw [hany, sumFor_filter_disjoint k _ _ R hdisj]

theorem cartLines_eq_filterE (db : Db) (user : Nat) :
    cartLines db user = db.recipeIngredients.filter
      (fun ri => (db.shoppingCart.filter (fun c => c.1 == user)).any
        (fun c => ri.recipeId == c.2)) := by
  unfold cartLines
  apply List.filter_congr
  intro ri _
  rw [List.any_filter]

theorem nodup_cart_recipes (db : Db) (user : Nat) (h : db.shoppingCart.Nodup) :
    ((db.shoppingCart.filter (fun c => c.1 == user)).map (·.2)).Nodup := by
  refine List.Nodup.map_on ?_ (h.filter _)
  intro x hx y hy hxy
  have hxu : x.1 = user := by
    have := (List.mem_filter.mp hx).2
    simpa using this
  have hyu : y.1 = user := by
    have := (List.mem_filter.mp hy).2
    simpa using this
  exact Prod.ext (hxu.trans hyu.symm) hxy

theorem recipes_sum_eq (db : Db) (user : Nat) (k : Ingredient)
    (h : db.shoppingCart.Nodup) :
    sumFor (recipesRows db user) k = sumFor (cartLines db user) k := by
  rw [recipesRows,
    sum_flatMap_eq_filter db.recipeIngredients k _ (nodup_cart_recipes db user h),
    ← cartLines_eq_filterE]

theorem mem_recipesRows_iff (db : Db) (user : Nat) (ri : RecipeIngredient) :
    ri ∈ recipesRows db user ↔ ri ∈ cartLines db user := by
  rw [recipesRows, cartLines]
  simp only [List.mem_flatMap, List.mem_filter, List.any_eq_true]
  constructor
  · rintro ⟨c, ⟨hc, hcu⟩, hri, hmatch⟩
    exact ⟨hri, c, hc, by simp [hcu, hmatch]⟩
  · rintro ⟨hri, c, hc, hmatch⟩
    rw [Bool.and_eq_true] at hmatch
    exact ⟨c, ⟨hc, hmatch.1⟩, hri, hmatch.2⟩

theorem ingredientPair_injective :
    Function.Injective (fun k : Ingredient => (k.name, k.measurement_unit)) := by
  intro a b h
  cases a
  cases b
  simpa using h

theorem aggregateApi_map_key_perm (db : Db) (user : Nat) :
    ((aggregateApi db user).map (fun g => (g.name, g.unit))).Perm
      ((dedupKeys ((cartLines db user).map (·.ingredient))).map
        (fun k => (k.name, k.measurement_unit))) := by
  unfold aggregateApi
  refine (List.Perm.map _ (perm_sortLines _)).trans ?_
  rw [List.map_map]
  exact List.Perm.refl _

theorem mem_aggregateApi (db : Db) (user : Nat) (g : GroupLine) :
    g ∈ aggregateApi db user ↔
      ∃ k ∈ dedupKeys ((cartLines db user).map (·.ingredient)),
        g = ⟨k.name, k.measurement_unit, sumFor (cartLines db user) k⟩ := by
  unfold aggregateApi
  rw [mem_sortLines, List.mem_map]
  constructor
  · rintro ⟨k, hk, rfl⟩; exact ⟨k, hk, rfl⟩
  · rintro ⟨k, hk, rfl⟩; exact ⟨k, hk, rfl⟩

theorem aggregateApi_keys_nodup (db : Db) (user : Nat) :
    ((aggregateApi db user).map (fun g => (g.name, g.unit))).Nodup := by
  rw [(aggregateApi_map_key_perm db user).nodup_iff]
  exact (nodup_dedupKeys _).map ingredientPair_injective

theorem aggregateApi_keys_mem (db : Db) (user : Nat) (n u2 : String) :
    (n, u2) ∈ (aggregateApi db user).map (fun g => (g.name, g.unit)) ↔
      (⟨n, u2⟩ : Ingredient) ∈ (cartLines db user).map (·.ingredient) := by
  rw [(aggregateApi_map_key_perm db user).mem_iff, List.mem_map]
  constructor
  · rintro ⟨k, hk, hkey⟩
    have : k = ⟨n, u2⟩ := by
      cases k
      simpa using hkey
    rw [this] at hk
    exact (mem_dedupKeys _ _).mp hk
  · intro hmem
    exact ⟨⟨n, u2⟩, (mem_dedupKeys _ _).mpr hmem, rfl⟩

theorem aggregateApi_total (db : Db) (user : Nat) (g : GroupLine)
    (hg : g ∈ aggregateApi db user) :
    g.total = sumFor (cartLines db user) ⟨g.name, g.unit⟩ := by
  rcases (mem_aggregateApi db user g).mp hg with ⟨k, _, rfl⟩
  rfl

theorem aggregateRecipes_map_key (db : Db) (user : Nat) :
    (aggregateRecipes db user).map (fun g => (g.name, g.unit))
      = (dedupKeys ((recipesRows db user).map (·.ingredient))).map
          (fun k => (k.name, k.measurement_unit)) := by
  unfold aggregateRecipes
  rw [List.map_map, ← recipesDict_keys db user, List.map_map]
  rfl

theorem aggregateRecipes_keys_nodup (db : Db) (user : Nat) :
    ((aggregateRecipes db user).map (fun g => (g.name, g.unit))).Nodup := by
  rw [aggregateRecipes_map_key]
  exact (nodup_dedupKeys _).map ingredientPair_injective

theorem aggregateRecipes_keys_mem (db : Db) (user : Nat) (n u2 : String) :
    (n, u2) ∈ (aggregateRecipes db user).map (fun g => (g.name, g.unit)) ↔
      (⟨n, u2⟩ : Ingredient) ∈ (cartLines db user).map (·.ingredient) := by
  rw [aggregateRecipes_map_key, List.mem_map]
  constructor
  · rintro ⟨k, hk, hkey⟩
    have hkn : k = ⟨n, u2⟩ := by
      cases k
      simpa using hkey
    rw [hkn] at hk
    rcases List.mem_map.mp ((mem_dedupKeys _ _).mp hk) with ⟨ri, hri, hik⟩
    exact List.mem_map.mpr ⟨ri, (mem_recipesRows_iff db user ri).mp hri, hik⟩
  · intro hmem
    rcases List.mem_map.mp hmem with ⟨ri, hri, hik⟩
    refine ⟨⟨n, u2⟩, (mem_dedupKeys _ _).mpr ?_, rfl⟩
    exact List.mem_map.mpr ⟨ri, (mem_recipesRows_iff db user ri).mpr hri, hik⟩

theorem aggregateRecipes_total (db : Db) (user : Nat) (g : GroupLine)
    (hg : g ∈ aggregateRecipes db user) :
    g.total = sumFor (recipesRows db user) ⟨g.name, g.unit⟩ := by
  rcases List.mem_map.mp hg with ⟨p, hp, rfl⟩
  have hv := recipesDict_value db user p hp
  have hk : p.1 = (⟨p.1.name, p.1.measurement_unit⟩ : Ingredient) := by
    cases p.1
    rfl
  rw [← hk]
  exact hv

/-- A concrete snapshot matching the spec scenario: the cart of user 1
holds Recipe 1 (flour, g, 200) and Recipe 2 (flour, g, 150; sugar, g, 50). -/
def sampleDb : Db :=
  { users := [1]
  , recipes := [1, 2]
  , recipeIngredients :=
      [⟨1, ⟨"flour", "g"⟩, 200⟩, ⟨2, ⟨"flour", "g"⟩, 150⟩, ⟨2, ⟨"sugar", "g"⟩, 50⟩]
  , shoppingCart := [(1, 1), (1, 2)]
  , favorites := [] }

/-- A snapshot where the cart of user 1 holds one recipe that has no ingredient
lines at all. -/
def zeroLinesDb : Db :=
  { users := [1]
  , recipes := [1]
  , recipeIngredients := []
  , shoppingCart := [(1, 1)]
  , favorites := [] }

/-- A snapshot whose single recipe lists sugar before flour, so that
first-occurrence order differs from alphabetical order. -/
def unsortedDb : Db :=
  { users := [1]
  , recipes := [1]
  , recipeIngredients := [⟨1, ⟨"sugar", "g"⟩, 5⟩, ⟨1, ⟨"flour", "g"⟩, 7⟩]
  , shoppingCart := [(1, 1)]
  , favorites := [] }

/-- C1: both shopping-list aggregations output exactly one line per
distinct (ingredient name, measurement unit) pair occurring among the
ingredient lines of the recipes in the cart, and the total on each line is the
sum of the amounts of all such lines for that pair; in particular two
recipes sharing an ingredient merge into one summed line.  For the
recipes-app variant the per-cart-entry traversal enumerates each recipe
once because cart rows are unique, so its totals likewise equal the sums
over the ingredient lines of the cart. -/
theorem shopping_list_merges_pairs (db : Db) (user : Nat) :
    ((aggregateApi db user).map (fun g => (g.name, g.unit))).Nodup
    ∧ (∀ n u2 : String,
        (n, u2) ∈ (aggregateApi db user).map (fun g => (g.name, g.unit))
          ↔ (⟨n, u2⟩ : Ingredient) ∈ (cartLines db user).map (·.ingredient))
    ∧ (∀ g ∈ aggregateApi db user,
        g.total = sumFor (cartLines db user) ⟨g.name, g.unit⟩)
    ∧ (db.shoppingCart.Nodup →
        ((aggregateRecipes db user).map (fun g => (g.name, g.unit))).Nodup
        ∧ (∀ n u2 : String,
            (n, u2) ∈ (aggregateRecipes db user).map (fun g => (g.name, g.unit))
              ↔ (⟨n, u2⟩ : Ingredient) ∈ (cartLines db user).map (·.ingredient))
        ∧ (∀ g ∈ aggregateRecipes db user,
            g.total = sumFor (cartLines db user) ⟨g.name, g.unit⟩)) := by
  refine ⟨aggregateApi_keys_nodup db user,
    fun n u2 => aggregateApi_keys_mem db user n u2,
    fun g hg => aggregateApi_total db user g hg,
    fun hnd => ⟨aggregateRecipes_keys_nodup db user,
      fun n u2 => aggregateRecipes_keys_mem db user n u2,
      fun g hg => ?_⟩⟩
  rw [aggregateRecipes_total db user g hg]
  exact recipes_sum_eq db user _ hnd

/-- C1 witness: on the concrete sample snapshot the cart is duplicate-free
and the recipes-app aggregation satisfies the merged-pairs property. -/
theorem shopping_list_merges_pairs_witness :
    sampleDb.shoppingCart.Nodup
    ∧ (((aggregateRecipes sampleDb 1).map (fun g => (g.name, g.unit))).Nodup
      ∧ (∀ n u2 : String,
          (n, u2) ∈ (aggregateRecipes sampleDb 1).map (fun g => (g.name, g.unit))
            ↔ (⟨n, u2⟩ : Ingredient) ∈ (cartLines sampleDb 1).map (·.ingredient))
      ∧ (∀ g ∈ aggregateRecipes sampleDb 1,
          g.total = sumFor (cartLines sampleDb 1) ⟨g.name, g.unit⟩)) :=
  ⟨by decide, (shopping_list_merges_pairs sampleDb 1).2.2.2 (by decide)⟩

/-- C2 counterexample: on `unsortedDb` the recipes-app implementation of
the download emits the line for "sugar" before the line for "flour", so
its lines are not ordered by ingredient name ascending. -/
theorem recipes_output_not_sorted :
    (aggregateRecipes unsortedDb 1).map GroupLine.name = ["sugar", "flour"]
    ∧ ¬ ((aggregateRecipes unsortedDb 1).map GroupLine.name).Pairwise (· ≤ ·) := by
  have hnames : (aggregateRecipes unsortedDb 1).map GroupLine.name
      = ["sugar", "flour"] := by decide
  refine ⟨hnames, ?_⟩
  rw [hnames]
  intro hpair
  have hle := (List.pairwise_cons.mp hpair).1 "flour" (by simp)
  rw [String.le_iff_toList_le] at hle
  revert hle
  decide

/-- C2 (amended): the lines of the api implementation are sorted by ingredient
name ascending (code-point order, hence deterministic), while the
recipes-app implementation emits one line per key in first-occurrence
order of the (name, unit) pair in its cart traversal — deterministic on
the same data, but not sorted by name. -/
theorem download_lines_order (db : Db) (user : Nat) :
    ((aggregateApi db user).map GroupLine.name).Pairwise (· ≤ ·)
    ∧ (aggregateRecipes db user).map (fun g => (g.name, g.unit))
        = (dedupKeys ((recipesRows db user).map (·.ingredient))).map
            (fun k => (k.name, k.measurement_unit)) := by
  constructor
  · rw [aggregateApi, List.pairwise_map]
    exact sorted_sortLines _
  · exact aggregateRecipes_map_key db user

/-- C3: when no ingredient line belongs to any recipe in the cart of the user —
in particular when the cart is empty, or its recipes have no ingredient
lines — both implementations succeed and render the empty string. -/
theorem empty_cart_empty_output (db : Db) (user : Nat)
    (h : ∀ c ∈ db.shoppingCart, c.1 = user →
      ∀ ri ∈ db.recipeIngredients, ri.recipeId ≠ c.2) :
    contentApi db user = "" ∧ contentRecipes db user = "" := by
  have hcart : cartLines db user = [] := by
    rw [cartLines, List.filter_eq_nil_iff]
    intro ri hri
    rw [List.any_eq_true]
    rintro ⟨c, hc, hmatch⟩
    rw [Bool.and_eq_true] at hmatch
    exact h c hc (by simpa using hmatch.1) ri hri (by simpa using hmatch.2)
  have hrows : recipesRows db user = [] := by
    rw [recipesRows, List.flatMap_eq_nil_iff]
    intro c hc
    rw [List.filter_eq_nil_iff]
    intro ri hri hmatch
    exact h c (List.mem_filter.mp hc).1
      (by simpa using (List.mem_filter.mp hc).2) ri hri (by simpa using hmatch)
  constructor
  · rw [contentApi, aggregateApi, hcart]
    simp [dedupKeys, sortLines, pyJoin]
  · rw [contentRecipes, aggregateRecipes, recipesDict, hrows]
    simp [pyJoin]

/-- C3 witness: the cart of user 1 on `zeroLinesDb` references a recipe with no
ingredient lines, and both outputs are the empty string. -/
theorem empty_cart_empty_output_witness :
    (∀ c ∈ zeroLinesDb.shoppingCart, c.1 = 1 →
      ∀ ri ∈ zeroLinesDb.recipeIngredients, ri.recipeId ≠ c.2)
    ∧ contentApi zeroLinesDb 1 = "" ∧ contentRecipes zeroLinesDb 1 = "" :=
  ⟨by simp [zeroLinesDb], empty_cart_empty_output zeroLinesDb 1 (by simp [zeroLinesDb])⟩

/-- C4: an unauthenticated GET of the download endpoint is answered 401
with a response that does not depend on the stored data (the aggregation
never runs), while an authenticated one is answered 200 with
`Content-Type: text/plain`, the rendered listing as body, and a
`Content-Disposition` attachment named `shopping_list.txt` — in both
implementations. -/
theorem download_endpoint_responses (db : Db) (user : Nat) :
    (download_shopping_cart db false user
        = (⟨401, none, none, unauthorizedDetail⟩, db)
      ∧ ∀ db2 : Db, (download_shopping_cart db2 false user).1
          = (download_shopping_cart db false user).1)
    ∧ download_shopping_cart db true user
        = (⟨200, some "text/plain", some attachmentHeader, contentApi db user⟩, db)
    ∧ (download_shopping_cart_recipes db false user
        = (⟨401, none, none, unauthorizedDetail⟩, db)
      ∧ ∀ db2 : Db, (download_shopping_cart_recipes db2 false user).1
          = (download_shopping_cart_recipes db false user).1)
    ∧ download_shopping_cart_recipes db true user
        = (⟨200, some "text/plain", some attachmentHeader, contentRecipes db user⟩, db) :=
  ⟨⟨rfl, fun _ => rfl⟩, rfl, ⟨rfl, fun _ => rfl⟩, rfl⟩

/-- C5 counterexample: the recipes-app write serializer accepts the amount
32001, which exceeds the claimed inclusive upper bound 32000. -/
theorem recipes_amount_no_upper_bound :
    amountValidRecipes 32001 = true ∧ ¬ ((32001 : Int) ≤ 32000) := by
  constructor
  · decide
  · decide

theorem sumFor_nonneg (rows : List RecipeIngredient) (k : Ingredient)
    (h : ∀ r ∈ rows, 1 ≤ r.amount) : 0 ≤ sumFor rows k := by
  apply List.sum_nonneg
  intro x hx
  rcases List.mem_map.mp hx with ⟨r, hr, rfl⟩
  have h1 := h r (List.mem_filter.mp hr).1
  omega

/-- C5 (amended): the api serializer accepts exactly the integer amounts
between `MIN_INGREDIENT_AMOUNT = 1` and `MAX_INGREDIENT_AMOUNT = 32000`
inclusive; the recipes-app serializer only enforces the lower bound 1; and
whenever every stored amount is at least 1 — which either validator
guarantees — every aggregated total of both implementations is a
non-negative integer. -/
theorem amount_validation_and_totals (db : Db) (user : Nat) :
    (∀ a : Int, amountValidApi a = true ↔ (1 ≤ a ∧ a ≤ 32000))
    ∧ (∀ a : Int, amountValidRecipes a = true ↔ 1 ≤ a)
    ∧ ((∀ ri ∈ db.recipeIngredients, 1 ≤ ri.amount) →
        (∀ g ∈ aggregateApi db user, 0 ≤ g.total)
        ∧ (∀ g ∈ aggregateRecipes db user, 0 ≤ g.total)) := by
  refine ⟨?_, ?_, ?_⟩
  · intro a
    simp [amountValidApi, MIN_INGREDIENT_AMOUNT, MAX_INGREDIENT_AMOUNT]
  · intro a
    simp [amountValidRecipes]
  · intro hall
    have hcart : ∀ r ∈ cartLines db user, 1 ≤ r.amount :=
      fun r hr => hall r (List.mem_filter.mp hr).1
    constructor
    · intro g hg
      rw [aggregateApi_total db user g hg]
      exact sumFor_nonneg _ _ hcart
    · intro g hg
      rw [aggregateRecipes_total db user g hg]
      refine sumFor_nonneg _ _ ?_
      intro r hr
      exact hcart r ((mem_recipesRows_iff db user r).mp hr)

/-- C5 witness: all sample amounts are at least 1, and the aggregated
totals of both implementations on the sample snapshot are non-negative. -/
theorem amount_validation_and_totals_witness :
    (∀ ri ∈ sampleDb.recipeIngredients, 1 ≤ ri.amount)
    ∧ ((∀ g ∈ aggregateApi sampleDb 1, 0 ≤ g.total)
      ∧ (∀ g ∈ aggregateRecipes sampleDb 1, 0 ≤ g.total)) :=
  ⟨by decide, (amount_validation_and_totals sampleDb 1).2.2 (by decide)⟩

/-- C6: in both implementations the body is exactly the formatted group
lines — each of the form `name ++ " (" ++ unit ++ ") — " ++ total` —
joined by single newline characters with no trailing separator, as
rendered literally by `joinLinesSpec`. -/
theorem render_format (db : Db) (user : Nat) :
    contentApi db user = joinLinesSpec ((aggregateApi db user).map fmtLine)
    ∧ contentRecipes db user = joinLinesSpec ((aggregateRecipes db user).map fmtLine)
    ∧ ∀ g : GroupLine,
        fmtLine g = g.name ++ " (" ++ g.unit ++ ") — " ++ toString g.total :=
  ⟨pyJoin_eq_joinLinesSpec _, pyJoin_eq_joinLinesSpec _, fun _ => rfl⟩

/-- C7: running the download twice in a row with no mutation in between —
the second call starts from the state the first call returned — produces
identical responses, for both implementations and any authentication
state. -/
theorem download_idempotent (db : Db) (isAuthenticated : Bool) (user : Nat) :
    (download_shopping_cart
        (download_shopping_cart db isAuthenticated user).2 isAuthenticated user).1
      = (download_shopping_cart db isAuthenticated user).1
    ∧ (download_shopping_cart_recipes
        (download_shopping_cart_recipes db isAuthenticated user).2
        isAuthenticated user).1
      = (download_shopping_cart_recipes db isAuthenticated user).1 := by
  cases isAuthenticated <;> exact ⟨rfl, rfl⟩

/-- C8: the download is a pure read — the database snapshot after the
call (users, recipes, ingredient lines, cart entries and favorites alike)
is exactly the snapshot before it, in both implementations. -/
theorem download_pure_read (db : Db) (isAuthenticated : Bool) (user : Nat) :
    (download_shopping_cart db isAuthenticated user).2 = db
    ∧ (download_shopping_cart_recipes db isAuthenticated user).2 = db := by
  cases isAuthenticated <;> exact ⟨rfl, rfl⟩

/-- The recipe ids referenced by the cart rows of a user: the recipe set the
aggregator resolves from the cart. -/
def cartRecipes (db : Db) (user : Nat) : List Nat :=
  (db.shoppingCart.filter (fun c => c.1 == user)).map (·.2)

/-- C9: under the unique-together (user, recipe) invariant — cart
rows pairwise distinct — every request through the `shopping_cart` action
leaves the cart duplicate-free; a POST for a pair already present is
refused with 400 and no change; and the recipe ids the cart of a user resolves
to contain no duplicates. -/
theorem cart_uniqueness_invariant (db : Db) (h : db.shoppingCart.Nodup) :
    (∀ (isAuthenticated : Bool) (user pk : Nat) (method : HttpMethod),
      ((shopping_cart db isAuthenticated user pk method).2).shoppingCart.Nodup)
    ∧ (∀ user pk : Nat, pk ∈ db.recipes → (user, pk) ∈ db.shoppingCart →
        shopping_cart db true user pk HttpMethod.post
          = (⟨400, none, none, "Рецепт уже в списке покупок."⟩, db))
    ∧ (∀ user : Nat, (cartRecipes db user).Nodup) := by
  refine ⟨?_, ?_, fun user => nodup_cart_recipes db user h⟩
  · intro isAuthenticated user pk method
    cases isAuthenticated with
    | false => simpa [shopping_cart] using h
    | true =>
      by_cases hrec : db.recipes.contains pk
      · have hrecm : pk ∈ db.recipes := by simpa using hrec
        cases method with
        | post =>
          by_cases hdup :
              (db.shoppingCart.filter (fun c => c == (user, pk))).isEmpty = false
          · simpa [shopping_cart, hrec, hrecm, hdup] using h
          · have hemp : (db.shoppingCart.filter (fun c => c == (user, pk))).isEmpty
                = true := by
              revert hdup
              cases (db.shoppingCart.filter (fun c => c == (user, pk))).isEmpty <;> simp
            have hnmem : (user, pk) ∉ db.shoppingCart := by
              intro hmem
              have hin : (user, pk) ∈ db.shoppingCart.filter (fun c => c == (user, pk)) :=
                List.mem_filter.mpr ⟨hmem, by simp⟩
              rw [List.isEmpty_iff] at hemp
              rw [hemp] at hin
              cases hin
            simp only [shopping_cart, hrec, hdup, Bool.not_true, Bool.not_false,
              Bool.false_eq_true, if_false, if_true]
            refine h.append (List.nodup_singleton _) ?_
            intro a ha hb
            rw [List.mem_singleton] at hb
            rw [hb] at ha
            exact hnmem ha
        | delete =>
          by_cases hdup :
              (db.shoppingCart.filter (fun c => c == (user, pk))).isEmpty
          · simpa [shopping_cart, hrec, hrecm, hdup] using h
          · simp only [shopping_cart, hrec, hdup, Bool.not_true, Bool.not_false,
              Bool.false_eq_true, if_false, if_true]
            exact h.filter _
      · have hrecm : ¬ pk ∈ db.recipes := by simpa using hrec
        simpa [shopping_cart, hrec, hrecm] using h
  · intro user pk hrec hmem
    have hcont : db.recipes.contains pk = true := by simpa using hrec
    have hin : (user, pk) ∈ db.shoppingCart.filter (fun c => c == (user, pk)) :=
      List.mem_filter.mpr ⟨hmem, by simp⟩
    have hne : db.shoppingCart.filter (fun c => c == (user, pk)) ≠ [] :=
      List.ne_nil_of_mem hin
    have hdup : (db.shoppingCart.filter (fun c => c == (user, pk))).isEmpty = false := by
      simpa [List.isEmpty_iff] using hne
    simp [shopping_cart, hcont, hrec, hdup]

/-- C9 witness: the sample cart is duplicate-free, the resolved recipe
set has no duplicates, and a duplicate POST is refused unchanged. -/
theorem cart_uniqueness_invariant_witness :
    sampleDb.shoppingCart.Nodup
    ∧ (cartRecipes sampleDb 1).Nodup
    ∧ shopping_cart sampleDb true 1 1 HttpMethod.post
        = (⟨400, none, none, "Рецепт уже в списке покупок."⟩, sampleDb) :=
  ⟨by decide, (cart_uniqueness_invariant sampleDb (by decide)).2.2 1,
    (cart_uniqueness_invariant sampleDb (by decide)).2.1 1 1 (by decide) (by decide)⟩

/-- C10: for an authenticated user and an existing recipe, a POST to the
cart endpoint when the (user, recipe) pair is already in the cart answers
400 with an error body and leaves the whole database unchanged, and a
DELETE when the pair is not in the cart answers 400 with an error body
and leaves the whole database unchanged. -/
theorem cart_duplicate_rejection (db : Db) (user pk : Nat)
    (hrec : pk ∈ db.recipes) :
    ((user, pk) ∈ db.shoppingCart →
      shopping_cart db true user pk HttpMethod.post
        = (⟨400, none, none, "Рецепт уже в списке покупок."⟩, db))
    ∧ ((user, pk) ∉ db.shoppingCart →
      shopping_cart db true user pk HttpMethod.delete
        = (⟨400, none, none, "Рецепта нет в списке покупок."⟩, db)) := by
  have hcont : db.recipes.contains pk = true := by simpa using hrec
  constructor
  · intro hmem
    have hin : (user, pk) ∈ db.shoppingCart.filter (fun c => c == (user, pk)) :=
      List.mem_filter.mpr ⟨hmem, by simp⟩
    have hdup : (db.shoppingCart.filter (fun c => c == (user, pk))).isEmpty = false := by
      simpa [List.isEmpty_iff] using List.ne_nil_of_mem hin
    simp [shopping_cart, hcont, hrec, hdup]
  · intro hmem
    have hnil : db.shoppingCart.filter (fun c => c == (user, pk)) = [] := by
      rw [List.filter_eq_nil_iff]
      intro c hc hcq
      apply hmem
      have : c = (user, pk) := by simpa using hcq
      rw [← this]
      exact hc
    have hdup : (db.shoppingCart.filter (fun c => c == (user, pk))).isEmpty = true := by
      rw [hnil]
      rfl
    simp [shopping_cart, hcont, hrec, hdup]

/-- C10 witness: on the sample snapshot a duplicate POST for recipe 1 by
user 1 and a DELETE for recipe 1 by user 2 (whose cart lacks it) are both
rejected with 400 and leave the snapshot unchanged. -/
theorem cart_duplicate_rejection_witness :
    ((1, 1) ∈ sampleDb.shoppingCart
      ∧ shopping_cart sampleDb true 1 1 HttpMethod.post
          = (⟨400, none, none, "Рецепт уже в списке покупок."⟩, sampleDb))
    ∧ ((2, 1) ∉ sampleDb.shoppingCart
      ∧ shopping_cart sampleDb true 2 1 HttpMethod.delete
          = (⟨400, none, none, "Рецепта нет в списке покупок."⟩, sampleDb)) :=
  ⟨⟨by decide, (cart_duplicate_rejection sampleDb 1 1 (by decide)).1 (by decide)⟩,
   ⟨by decide, (cart_duplicate_rejection sampleDb 2 1 (by decide)).2 (by decide)⟩⟩
